import Mathlib

/-!
Verification of the multisig transaction proposer.

This file gives a shallow embedding, in Lean, of the control flow of the
transaction-proposal pipeline of the repository (Safe multisig automate
proposer): the sequential-nonce batch proposer of safe-manager.ts, the
execute/fallback orchestration of transaction-executor.ts, the broadcast
artifact reader, the hex-to-decimal value conversion, the transaction-data
validator of validation.ts, and the fork decision helpers of
anvil-manager.ts.  External collaborators (the Safe transaction service,
the live chain nonce) are modelled as explicit environments supplying the
outcome of each service call; the embedded functions reproduce the source
code's branching on those outcomes.
-/

/-- Model of JavaScript's String.prototype.includes: returns true when
pat occurs as a contiguous substring of s (the empty pattern is always found).
Implemented over character lists. -/
def startsWithList (pat s : List Char) : Bool :=
  match pat, s with
  | [], _ => true
  | _ :: _, [] => false
  | p :: ps, c :: cs => p = c && startsWithList ps cs

/-- Auxiliary scan: does pat occur at some position of s? -/
def hasInfixAux (pat s : List Char) : Bool :=
  startsWithList pat s ||
    match s with
    | [] => false
    | _ :: cs => hasInfixAux pat cs

/-- s.includes(pat) of JavaScript. -/
def containsSubstr (s pat : String) : Bool :=
  hasInfixAux pat.data s.data

/-- Environment supplying the outcomes of the external Safe service calls
made by SafeManager: currentNonce k is the value returned by the k-th call
to getCurrentNonce (the 0-th call is the base-nonce fetch at the start of a
batch), and propose i n is the outcome of proposeTransactionWithNonce for
the transaction at batch index i submitted with explicit nonce n: either
the Safe transaction hash, or a thrown error's message string. -/
structure ProposalEnv where
  currentNonce : Nat → Nat
  propose : Nat → Nat → Except String String

/-- The error-message marker the source uses to recognise a nonce conflict
reported by the Safe transaction service. -/
def unprocessableContent : String := "Unprocessable Content"

/-- Loop body of SafeManager.proposeTransactionsWithSequentialNonces
(safe-manager.ts).  rem is the number of transactions still to propose,
i the current batch index (so rem + i = batch size), k the number of
getCurrentNonce calls made so far, and acc the (nonce, hash) pairs of the
successfully proposed transactions so far, in submission order.  For each
index the attempted nonce is base + i; on an error whose message contains
"Unprocessable Content" the live nonce is fetched exactly once (call k) and,
when it differs from the attempted nonce, the single transaction is retried
once with nonce fresh + i; otherwise the original error propagates; an error
without the marker propagates without any retry. -/
def proposeGo (env : ProposalEnv) (base : Nat) :
    Nat → Nat → Nat → List (Nat × String) → Except String (List (Nat × String))
  | 0, _, _, acc => Except.ok acc
  | rem + 1, i, k, acc =>
    let nonce := base + i
    match env.propose i nonce with
    | Except.ok hash => proposeGo env base rem (i + 1) k (acc ++ [(nonce, hash)])
    | Except.error msg =>
      if containsSubstr msg unprocessableContent then
        let freshNonce := env.currentNonce k
        if freshNonce ≠ nonce then
          match env.propose i (freshNonce + i) with
          | Except.ok hash => proposeGo env base rem (i + 1) (k + 1) (acc ++ [(freshNonce + i, hash)])
          | Except.error msg2 => Except.error msg2
        else
          Except.error msg
      else
        Except.error msg

/-- SafeManager.proposeTransactionsWithSequentialNonces, instrumented to
return the (assigned nonce, hash) pair per transaction instead of the hash
alone.  An empty batch returns [] without touching the service; otherwise the
base nonce is the first getCurrentNonce result and the loop starts at index 0
with one nonce fetch already consumed. -/
def proposeTrace (env : ProposalEnv) (K : Nat) : Except String (List (Nat × String)) :=
  if K = 0 then Except.ok []
  else proposeGo env (env.currentNonce 0) K 0 1 []

/-- SafeManager.proposeTransactionsWithSequentialNonces as in the source:
the returned value is the list of Safe transaction hashes. -/
def proposeTransactionsWithSequentialNonces (env : ProposalEnv) (K : Nat) :
    Except String (List String) :=
  (proposeTrace env K).map (fun l => l.map Prod.snd)

example : proposeTrace ⟨fun _ => 4, fun i n => Except.ok (toString i ++ toString n)⟩ 2 =
    Except.ok [(4, "04"), (5, "15")] := rfl

/-- A normalized transaction input of transaction-executor.ts: destination
(the source's field is named to, a reserved word here), value (decimal wei
string), calldata, and optional operation kind. -/
structure TxData where
  toAddr : String
  value : String
  data : String
  operation : Option String
  deriving DecidableEq, Repr

/-- Environment of TransactionExecutor.executeTransactions: the ProposalEnv
backing proposeTransactionsWithSequentialNonces, plus proposeSimple i, the
outcome of SafeManager.proposeTransaction (the simple path with no explicit
nonce) for the transaction at index i. -/
structure ExecEnv where
  penv : ProposalEnv
  proposeSimple : Nat → Except String String

/-- The individual-proposal fallback loop of executeTransactions
(transaction-executor.ts): propose each remaining transaction one at a time
via the simple path; the first failure rethrows that error, aborting the
rest; acc holds the hashes collected so far in order. -/
def fallbackGo (env : ExecEnv) : Nat → Nat → List String → Except String (List String)
  | 0, _, acc => Except.ok acc
  | rem + 1, i, acc =>
    match env.proposeSimple i with
    | Except.ok hash => fallbackGo env rem (i + 1) (acc ++ [hash])
    | Except.error e => Except.error e

/-- TransactionExecutor.executeTransactions (transaction-executor.ts): an
empty list returns []; a dry run displays the transactions and returns []
before any conversion, signing or proposal step; otherwise the batch is
proposed with sequential nonces, and if that whole call throws, every
transaction is proposed individually in the original order via the simple
path. -/
def executeTransactions (env : ExecEnv) (transactions : List TxData) (dryRun : Bool) :
    Except String (List String) :=
  if transactions.length = 0 then Except.ok []
  else if dryRun then Except.ok []
  else
    match proposeTransactionsWithSequentialNonces env.penv transactions.length with
    | Except.ok proposedHashes => Except.ok proposedHashes
    | Except.error _ => fallbackGo env transactions.length 0 []

/-- A broadcast-file transaction entry (the fields of BroadcastTransaction
that the reader and its consumers use: the type tag and the inner
transaction's to/value/input). -/
structure BroadcastTx where
  transactionType : String
  txTo : String
  txValue : String
  txInput : String
  deriving DecidableEq, Repr

/-- TransactionExecutor.readBroadcastFile: the file system is modelled as
Option (List BroadcastTx) — none when the resolved run-latest.json path does
not exist (the source throws "Broadcast file not found" / wraps the
readJsonFile failure), some txs when it parses.  On success the transactions
array is filtered to entries whose transactionType is "CALL". -/
def readBroadcastFile (file : Option (List BroadcastTx)) : Except String (List BroadcastTx) :=
  match file with
  | none => Except.error "Broadcast file not found"
  | some txs => Except.ok (txs.filter (fun tx => tx.transactionType == "CALL"))

/-- Hex digit recogniser matching the character class [0-9a-fA-F]. -/
def isHexDigitChar (c : Char) : Bool :=
  c.isDigit || ('a' ≤ c && c ≤ 'f') || ('A' ≤ c && c ≤ 'F')

/-- Numeric value of a hex digit. -/
def hexDigitVal (c : Char) : Nat :=
  if c.isDigit then c.toNat - '0'.toNat
  else if 'a' ≤ c && c ≤ 'f' then c.toNat - 'a'.toNat + 10
  else c.toNat - 'A'.toNat + 10

/-- Value of a big-endian list of hex digits. -/
def hexDigitsToNat (ds : List Char) : Nat :=
  ds.foldl (fun acc c => acc * 16 + hexDigitVal c) 0

/-- Model of JavaScript parseInt(s, 16): skip leading whitespace, take an
optional sign, strip an optional 0x/0X, then parse the longest leading run
of hex digits; the result is NaN (none) exactly when that run is empty.
The exact mathematical integer is returned; the double-precision rounding
JavaScript applies to values of 2^53 and above is not modelled (every claim
here evaluates the function on small values only). -/
def parseIntHex (s : String) : Option Int :=
  let cs := s.toList.dropWhile (fun c => c = ' ' || c = '\t' || c = '\n' || c = '\r')
  let signed : Int × List Char :=
    match cs with
    | '-' :: r => (-1, r)
    | '+' :: r => (1, r)
    | _ => (1, cs)
  let body : List Char :=
    match signed.2 with
    | '0' :: c :: r => if c = 'x' || c = 'X' then r else signed.2
    | _ => signed.2
  let digits := body.takeWhile isHexDigitChar
  if digits.isEmpty then none
  else some (signed.1 * (hexDigitsToNat digits : Int))

/-- hexValue.startsWith of JavaScript, over character lists. -/
def strStartsWith (s pat : String) : Bool :=
  startsWithList pat.data s.data

/-- The cleanHex computation of convertHexToDecimal: remove a leading 0x. -/
def cleanHexOf (hexValue : String) : String :=
  if strStartsWith hexValue "0x" then String.mk (hexValue.toList.drop 2) else hexValue

/-- convertHexToDecimal (safe-manager.ts utils / transaction-executor.ts):
empty, "0x" and "0x0" map to "0"; otherwise the 0x-stripped string is fed to
parseInt(-, 16); NaN yields "0" (with a logged warning, never a throw), any
parsed number is rendered in decimal. -/
def convertHexToDecimal (hexValue : String) : String :=
  if hexValue = "" || hexValue = "0x" || hexValue = "0x0" then "0"
  else
    match parseIntHex (cleanHexOf hexValue) with
    | none => "0"
    | some decimal => toString decimal

example : convertHexToDecimal "0xff" = "255" := by decide
example : convertHexToDecimal "0x12zz" = "18" := by decide
example : parseIntHex "zz" = none := by decide

/-- A ValidationError of validation.ts, reduced to the context that
identifies the offending field (the context.field value the source attaches
to the thrown error). -/
structure VErr where
  errField : String
  deriving DecidableEq, Repr

/-- The regex test ^\d+$ of validateTransactionData: a non-empty string of
decimal digits. -/
def decDigits (s : String) : Bool :=
  !s.toList.isEmpty && s.toList.all Char.isDigit

/-- Validator.validateAddress (validation.ts): an empty address is reported
as required, a non-address string as invalid; both against the given field
name.  The external ethers.isAddress predicate is passed in as isAddr. -/
def validateAddress (isAddr : String → Bool) (address fieldName : String) : Except VErr Unit :=
  if address = "" then Except.error ⟨fieldName⟩
  else if !(isAddr address) then Except.error ⟨fieldName⟩
  else Except.ok ()

/-- Validator.validateHexString (validation.ts): empty is required; the
0x-stripped remainder must match [0-9a-fA-F]*; an expected length, when
given, must equal the stripped length. -/
def validateHexString (hex fieldName : String) (expectedLength : Option Nat) :
    Except VErr Unit :=
  if hex = "" then Except.error ⟨fieldName⟩
  else if !((cleanHexOf hex).toList.all isHexDigitChar) then Except.error ⟨fieldName⟩
  else
    match expectedLength with
    | some n => if (cleanHexOf hex).toList.length ≠ n then Except.error ⟨fieldName⟩ else Except.ok ()
    | none => Except.ok ()

/-- Validator.validateTransactionData (validation.ts), with JavaScript
truthiness of the guards made explicit (an empty value, data or operation
string is falsy and skips its check): recipient address first, then the
value format (decimal digits or 0x-prefixed), then the calldata hex check,
then the operation kind. -/
def validateTransactionData (isAddr : String → Bool) (tx : TxData) : Except VErr Unit :=
  match validateAddress isAddr tx.toAddr "transaction recipient" with
  | Except.error e => Except.error e
  | Except.ok _ =>
    if tx.value ≠ "" ∧ tx.value ≠ "0" ∧
        decDigits tx.value = false ∧ strStartsWith tx.value "0x" = false then
      Except.error ⟨"value"⟩
    else
      match (if tx.data ≠ "" ∧ tx.data ≠ "0x" then
               validateHexString tx.data "transaction data" none
             else Except.ok ()) with
      | Except.error e => Except.error e
      | Except.ok _ =>
        match tx.operation with
        | none => Except.ok ()
        | some op =>
          if op ≠ "" ∧ op ≠ "call" ∧ op ≠ "delegatecall" then Except.error ⟨"operation"⟩
          else Except.ok ()

/-- AnvilManager.shouldStartFork (anvil-manager.ts): never fork when
explicitly skipped, never fork a loopback RPC URL, fork otherwise. -/
def shouldStartFork (rpcUrl : String) (skipAnvilFork : Bool) : Bool :=
  if skipAnvilFork then false
  else !(containsSubstr rpcUrl "localhost") && !(containsSubstr rpcUrl "127.0.0.1")

/-- The AnvilConfig of anvil-manager.ts (timeout omitted: getForgeRpcUrl
never reads it). -/
structure AnvilConfig where
  port : Option Nat
  host : Option String
  forkUrl : String
  deriving DecidableEq, Repr

/-- The host resolution of getForgeRpcUrl: 0.0.0.0 is rewritten to
localhost, a missing or empty (falsy) host defaults to localhost. -/
def anvilHostOf (c : AnvilConfig) : String :=
  if c.host = some "0.0.0.0" then "localhost"
  else
    match c.host with
    | some h => if h = "" then "localhost" else h
    | none => "localhost"

/-- The port resolution of getForgeRpcUrl: a missing or zero (falsy) port
defaults to 8545. -/
def anvilPortOf (c : AnvilConfig) : Nat :=
  match c.port with
  | some p => if p = 0 then 8545 else p
  | none => 8545

/-- AnvilManager.getForgeRpcUrl (anvil-manager.ts): with a running fork and
a configuration, target the fork's endpoint; else keep an already-loopback
input URL; else default to http://localhost:8545. -/
def getForgeRpcUrl (rpcUrl : String) (anvilRunning : Bool) (anvilConfig : Option AnvilConfig) :
    String :=
  match anvilRunning, anvilConfig with
  | true, some c => "http://" ++ anvilHostOf c ++ ":" ++ toString (anvilPortOf c)
  | _, _ =>
    if containsSubstr rpcUrl "localhost" || containsSubstr rpcUrl "127.0.0.1" then rpcUrl
    else "http://localhost:8545"

example : shouldStartFork "https://eth-sepolia.example.com" false = true := by decide
example : getForgeRpcUrl "https://r.example.com" true (some ⟨none, some "0.0.0.0", "u"⟩) =
    "http://localhost:8545" := by decide

deriving instance DecidableEq for Except

/-- When every first-attempt proposal in the remaining window succeeds, the
loop appends exactly the pairs (base + j, hash j) for j in the window, in
order, with no further nonce fetch. -/
theorem proposeGo_all_ok (env : ProposalEnv) (base : Nat) (hs : Nat → String) :
    ∀ (rem i k : Nat) (acc : List (Nat × String)),
      (∀ j, i ≤ j → j < i + rem → env.propose j (base + j) = Except.ok (hs j)) →
      proposeGo env base rem i k acc =
        Except.ok (acc ++ (List.range' i rem).map (fun j => (base + j, hs j))) := by
  intro rem
  induction rem with
  | zero => intro i k acc _; simp [proposeGo]
  | succ n ih =>
    intro i k acc H
    have h0 : env.propose i (base + i) = Except.ok (hs i) := H i le_rfl (by omega)
    rw [List.range'_succ]
    simp only [proposeGo, h0]
    rw [ih (i + 1) k (acc ++ [(base + i, hs i)]) (fun j hj1 hj2 => H j (by omega) (by omega))]
    simp [List.append_assoc]

/-- When every individual fallback proposal in the remaining window
succeeds, the loop appends exactly the hashes in order. -/
theorem fallbackGo_all_ok (env : ExecEnv) (hs : Nat → String) :
    ∀ (rem i : Nat) (acc : List String),
      (∀ j, i ≤ j → j < i + rem → env.proposeSimple j = Except.ok (hs j)) →
      fallbackGo env rem i acc = Except.ok (acc ++ (List.range' i rem).map hs) := by
  intro rem
  induction rem with
  | zero => intro i acc _; simp [fallbackGo]
  | succ n ih =>
    intro i acc H
    have h0 : env.proposeSimple i = Except.ok (hs i) := H i le_rfl (by omega)
    rw [List.range'_succ]
    simp only [fallbackGo, h0]
    rw [ih (i + 1) (acc ++ [hs i]) (fun j hj1 hj2 => H j (by omega) (by omega))]
    simp [List.append_assoc]

/-- The first failing individual fallback proposal aborts the loop with
exactly that error. -/
theorem fallbackGo_first_error (env : ExecEnv) (m : String) :
    ∀ (rem i : Nat) (acc : List String) (j : Nat),
      i ≤ j → j < i + rem →
      env.proposeSimple j = Except.error m →
      (∀ t, i ≤ t → t < j → ∃ h, env.proposeSimple t = Except.ok h) →
      fallbackGo env rem i acc = Except.error m := by
  intro rem
  induction rem with
  | zero => intro i acc j h1 h2 _ _; omega
  | succ n ih =>
    intro i acc j h1 h2 herr hok
    by_cases hij : i = j
    · subst hij
      simp only [fallbackGo, herr]
    · obtain ⟨h, hh⟩ := hok i le_rfl (by omega)
      simp only [fallbackGo, hh]
      exact ih (i + 1) (acc ++ [h]) j (by omega) (by omega) herr
        (fun t ht1 ht2 => hok t (by omega) ht2)

/-- A successful fallback loop implies every individual proposal in its
window succeeded. -/
theorem fallbackGo_ok_all (env : ExecEnv) :
    ∀ (rem i : Nat) (acc l : List String),
      fallbackGo env rem i acc = Except.ok l →
      ∀ t, i ≤ t → t < i + rem → ∃ h, env.proposeSimple t = Except.ok h := by
  intro rem
  induction rem with
  | zero => intro i acc l _ t h1 h2; omega
  | succ n ih =>
    intro i acc l hok t h1 h2
    rcases hp : env.proposeSimple i with m | h
    · rw [fallbackGo, hp] at hok; exact absurd hok (by simp)
    · by_cases hit : t = i
      · exact ⟨h, hit ▸ hp⟩
      · rw [fallbackGo, hp] at hok
        exact ih (i + 1) (acc ++ [h]) l hok t (by omega) (by omega)

/-- C1: for a batch of K transactions in which every individual proposal
succeeds without a conflict retry, the transactions are submitted in input
order with explicit nonces B, B + 1, ..., B + K - 1, where B is the Safe
nonce fetched fresh at the start of the batch (the 0-th getCurrentNonce
call), and the returned hash list has exactly one hash per transaction in
the same order. -/
theorem sequential_nonces_success (env : ProposalEnv) (K : Nat) (hs : Nat → String)
    (H : ∀ i, i < K → env.propose i (env.currentNonce 0 + i) = Except.ok (hs i)) :
    proposeTrace env K =
      Except.ok ((List.range K).map (fun i => (env.currentNonce 0 + i, hs i)))
    ∧ proposeTransactionsWithSequentialNonces env K = Except.ok ((List.range K).map hs) := by
  have htr : proposeTrace env K =
      Except.ok ((List.range K).map (fun i => (env.currentNonce 0 + i, hs i))) := by
    by_cases hK : K = 0
    · subst hK; simp [proposeTrace]
    · rw [proposeTrace, if_neg hK,
        proposeGo_all_ok env (env.currentNonce 0) hs K 0 1 []
          (fun j hj1 hj2 => H j (by omega)),
        List.range_eq_range']
      simp
  refine ⟨htr, ?_⟩
  rw [proposeTransactionsWithSequentialNonces, htr]
  simp [Except.map, List.map_map, Function.comp]

def envC1 : ProposalEnv :=
  { currentNonce := fun _ => 5
  , propose := fun i _ => Except.ok ("h" ++ toString i) }

def hsC1 : Nat → String := fun i => "h" ++ toString i

/-- Witness for C1 at a concrete two-transaction batch with base nonce 5. -/
theorem sequential_nonces_success_witness :
    proposeTrace envC1 2 =
      Except.ok ((List.range 2).map (fun i => (envC1.currentNonce 0 + i, hsC1 i)))
    ∧ proposeTransactionsWithSequentialNonces envC1 2 =
      Except.ok ((List.range 2).map hsC1) :=
  sequential_nonces_success envC1 2 hsC1 (by decide)

/-- C2: when the proposal at index i fails with an error whose message
contains "Unprocessable Content", the engine fetches the live nonce exactly
once (the k-th getCurrentNonce call, the continuation consuming k + 1);
when that fresh nonce F differs from the attempted nonce base + i, the
single transaction is retried once with nonce F + i and the batch then
moves on to index i + 1 (a failed retry propagates its error); when F
equals the attempted nonce, the original error propagates unchanged with no
retry; an error without the conflict marker propagates with no retry and no
nonce fetch. -/
theorem nonce_conflict_handling (env : ProposalEnv) (base rem i k : Nat)
    (acc : List (Nat × String)) (msg : String)
    (hfail : env.propose i (base + i) = Except.error msg) :
    (containsSubstr msg unprocessableContent = false →
       proposeGo env base (rem + 1) i k acc = Except.error msg)
    ∧ (containsSubstr msg unprocessableContent = true →
        (env.currentNonce k = base + i →
           proposeGo env base (rem + 1) i k acc = Except.error msg)
        ∧ (env.currentNonce k ≠ base + i →
            (∀ h, env.propose i (env.currentNonce k + i) = Except.ok h →
               proposeGo env base (rem + 1) i k acc =
                 proposeGo env base rem (i + 1) (k + 1) (acc ++ [(env.currentNonce k + i, h)]))
            ∧ (∀ m2, env.propose i (env.currentNonce k + i) = Except.error m2 →
               proposeGo env base (rem + 1) i k acc = Except.error m2))) := by
  constructor
  · intro hsig
    simp only [proposeGo, hfail, hsig]
    simp
  · intro hsig
    constructor
    · intro hfresh
      simp only [proposeGo, hfail, hsig]
      simp [hfresh]
    · intro hfresh
      constructor
      · intro h hretry
        simp only [proposeGo, hfail, hsig]
        simp [hfresh, hretry]
      · intro m2 hretry
        simp only [proposeGo, hfail, hsig]
        simp [hfresh, hretry]

def envC2 : ProposalEnv :=
  { currentNonce := fun k => if k = 0 then 5 else 9
  , propose := fun _ n => if n = 9 then Except.ok "hh" else Except.error "Unprocessable Content" }

/-- Witness for C2 at a concrete conflicted proposal: index 0, attempted
nonce 5, fresh nonce 9, retry at 9 succeeding. -/
theorem nonce_conflict_handling_witness :
    (containsSubstr "Unprocessable Content" unprocessableContent = false →
       proposeGo envC2 5 1 0 1 [] = Except.error "Unprocessable Content")
    ∧ (containsSubstr "Unprocessable Content" unprocessableContent = true →
        (envC2.currentNonce 1 = 5 + 0 →
           proposeGo envC2 5 1 0 1 [] = Except.error "Unprocessable Content")
        ∧ (envC2.currentNonce 1 ≠ 5 + 0 →
            (∀ h, envC2.propose 0 (envC2.currentNonce 1 + 0) = Except.ok h →
               proposeGo envC2 5 1 0 1 [] =
                 proposeGo envC2 5 0 1 2 ([] ++ [(envC2.currentNonce 1 + 0, h)]))
            ∧ (∀ m2, envC2.propose 0 (envC2.currentNonce 1 + 0) = Except.error m2 →
               proposeGo envC2 5 1 0 1 [] = Except.error m2))) :=
  nonce_conflict_handling envC2 5 0 0 1 [] "Unprocessable Content" (by decide)

def envC3 : ProposalEnv :=
  { currentNonce := fun k => if k = 0 then 5 else 8
  , propose := fun i n =>
      if i = 0 ∧ n = 5 then Except.error "Unprocessable Content"
      else if i = 0 ∧ n = 8 then Except.ok "h0"
      else if i = 1 ∧ n = 6 then Except.ok "h1"
      else Except.error "unexpected" }

/-- Counterexample to C3: a successful two-transaction batch in which index
0 succeeds via the conflict-retry path at nonce 8 (the fresh nonce raced
ahead of the base nonce 5), while index 1 still succeeds at base + 1 = 6;
the assigned nonce sequence [8, 6] is not strictly increasing. -/
theorem batch_nonces_increasing_cex :
    proposeTrace envC3 2 = Except.ok [(8, "h0"), (6, "h1")]
    ∧ ¬ List.Pairwise (fun a b : Nat => a < b) [8, 6] := by
  constructor
  · decide
  · intro hp
    have := List.rel_of_pairwise_cons hp (List.mem_singleton.mpr rfl)
    omega

/-- C3 as amended: in every successful batch run in which no proposal
needed the conflict-retry path (every transaction was accepted at its first
attempt), the assigned nonces, in submission order, are strictly
increasing. -/
theorem batch_nonces_increasing_no_retry (env : ProposalEnv) (K : Nat) (hs : Nat → String)
    (H : ∀ i, i < K → env.propose i (env.currentNonce 0 + i) = Except.ok (hs i)) :
    ∀ tr, proposeTrace env K = Except.ok tr →
      List.Pairwise (fun a b : Nat => a < b) (tr.map Prod.fst) := by
  intro tr htr
  by_cases hK : K = 0
  · subst hK
    rw [proposeTrace, if_pos rfl] at htr
    cases htr
    simp
  · rw [proposeTrace, if_neg hK,
      proposeGo_all_ok env (env.currentNonce 0) hs K 0 1 []
        (fun j hj1 hj2 => H j (by omega)),
      ← List.range_eq_range'] at htr
    cases htr
    simp only [List.nil_append, List.map_map]
    have hmap : (Prod.fst ∘ fun j => (env.currentNonce 0 + j, hs j)) =
        fun j => env.currentNonce 0 + j := by
      funext j; rfl
    rw [hmap]
    exact List.Pairwise.map _ (fun a b hab => by omega) (List.pairwise_lt_range K)

def envC3W : ProposalEnv :=
  { currentNonce := fun _ => 5
  , propose := fun i _ => Except.ok ("g" ++ toString i) }

/-- Witness for the amended C3 at a concrete retry-free batch. -/
theorem batch_nonces_increasing_no_retry_witness :
    List.Pairwise (fun a b : Nat => a < b) (([(5, "g0"), (6, "g1")] : List (Nat × String)).map Prod.fst) :=
  batch_nonces_increasing_no_retry envC3W 2 (fun i => "g" ++ toString i) (by decide)
    [(5, "g0"), (6, "g1")] (by decide)

/-- C4: for a non-empty transaction list (not in dry-run mode), when the
sequential-nonce batch call throws, the engine proposes every transaction
individually via the simple (no explicit nonce) path in the original
order: if every individual proposal succeeds the hashes are returned in
order; the first individual proposal that fails aborts the remaining batch
by rethrowing exactly that error; and any successful result implies every
individual proposal succeeded. -/
theorem fallback_on_sequential_failure (env : ExecEnv) (transactions : List TxData)
    (dryRun : Bool) (e : String)
    (hne : transactions ≠ []) (hdr : dryRun = false)
    (hseq : proposeTransactionsWithSequentialNonces env.penv transactions.length =
      Except.error e) :
    (∀ hs : Nat → String,
       (∀ i, i < transactions.length → env.proposeSimple i = Except.ok (hs i)) →
       executeTransactions env transactions dryRun =
         Except.ok ((List.range transactions.length).map hs))
    ∧ (∀ j m, j < transactions.length → env.proposeSimple j = Except.error m →
        (∀ t, t < j → ∃ h, env.proposeSimple t = Except.ok h) →
        executeTransactions env transactions dryRun = Except.error m)
    ∧ (∀ l, executeTransactions env transactions dryRun = Except.ok l →
        ∀ i, i < transactions.length → ∃ h, env.proposeSimple i = Except.ok h) := by
  have hlen : ¬ transactions.length = 0 := by
    simpa [List.length_eq_zero] using hne
  have hexec : executeTransactions env transactions dryRun =
      fallbackGo env transactions.length 0 [] := by
    rw [executeTransactions, if_neg hlen, hdr, if_neg (by simp), hseq]
  refine ⟨?_, ?_, ?_⟩
  · intro hs H
    rw [hexec, fallbackGo_all_ok env hs transactions.length 0 []
      (fun j hj1 hj2 => H j (by omega)), ← List.range_eq_range']
    simp
  · intro j m hj herr hok
    rw [hexec]
    exact fallbackGo_first_error env m transactions.length 0 [] j (by omega) (by omega)
      herr (fun t ht1 ht2 => hok t ht2)
  · intro l hl i hi
    rw [hexec] at hl
    exact fallbackGo_ok_all env transactions.length 0 [] l hl i (by omega) (by omega)

def envC4 : ExecEnv :=
  { penv := ⟨fun _ => 5, fun _ _ => Except.error "boom"⟩
  , proposeSimple := fun i => Except.ok ("s" ++ toString i) }

def txC4 : TxData := ⟨"0xaaaa", "0", "0x", none⟩

/-- Witness for C4 at a concrete two-transaction batch whose sequential
path fails with a non-conflict error. -/
theorem fallback_on_sequential_failure_witness :
    (∀ hs : Nat → String,
       (∀ i, i < [txC4, txC4].length → envC4.proposeSimple i = Except.ok (hs i)) →
       executeTransactions envC4 [txC4, txC4] false =
         Except.ok ((List.range [txC4, txC4].length).map hs))
    ∧ (∀ j m, j < [txC4, txC4].length → envC4.proposeSimple j = Except.error m →
        (∀ t, t < j → ∃ h, envC4.proposeSimple t = Except.ok h) →
        executeTransactions envC4 [txC4, txC4] false = Except.error m)
    ∧ (∀ l, executeTransactions envC4 [txC4, txC4] false = Except.ok l →
        ∀ i, i < [txC4, txC4].length → ∃ h, envC4.proposeSimple i = Except.ok h) :=
  fallback_on_sequential_failure envC4 [txC4, txC4] false "boom"
    (by simp) rfl (by decide)

/-- C5: a dry run returns the empty list for every transaction list and
every environment; since the result is the same for all environments, no
signing or proposal outcome can influence it — neither the
sequential-nonce path nor the individual proposal path is consulted. -/
theorem dry_run_returns_empty (env : ExecEnv) (transactions : List TxData) :
    executeTransactions env transactions true = Except.ok [] := by
  rw [executeTransactions]
  split
  · rfl
  · rw [if_pos rfl]

/-- C6: on an existing broadcast file the reader returns exactly the
entries whose transactionType is "CALL": the result is a sublist of the
input (hence in original order), every returned entry is a CALL, the
result length is the number of CALL entries of the input, every CALL entry
of the input is kept; and on a missing file the reader fails with an
error. -/
theorem broadcast_reader_filters_calls (txs : List BroadcastTx) :
    (∃ l, readBroadcastFile (some txs) = Except.ok l
       ∧ l.Sublist txs
       ∧ (∀ tx ∈ l, tx.transactionType = "CALL")
       ∧ l.length = txs.countP (fun tx => tx.transactionType == "CALL")
       ∧ (∀ tx ∈ txs, tx.transactionType = "CALL" → tx ∈ l))
    ∧ ∃ msg, readBroadcastFile (none : Option (List BroadcastTx)) = Except.error msg := by
  refine ⟨⟨txs.filter (fun tx => tx.transactionType == "CALL"), rfl, ?_, ?_, ?_, ?_⟩,
    "Broadcast file not found", rfl⟩
  · exact List.filter_sublist txs
  · intro tx htx
    have := (List.mem_filter.mp htx).2
    simpa using this
  · rw [List.countP_eq_length_filter]
  · intro tx htx hcall
    exact List.mem_filter.mpr ⟨htx, by simpa using hcall⟩

def btxCall : BroadcastTx := ⟨"CALL", "0xabc", "0x0", "0xdead"⟩

def btxCreate : BroadcastTx := ⟨"CREATE", "0xdef", "0x0", "0xbeef"⟩

/-- Witness for C6 at a concrete file with two CALL entries around one
CREATE entry. -/
theorem broadcast_reader_filters_calls_witness :
    (∃ l, readBroadcastFile (some [btxCall, btxCreate, btxCall]) = Except.ok l
       ∧ l.Sublist [btxCall, btxCreate, btxCall]
       ∧ (∀ tx ∈ l, tx.transactionType = "CALL")
       ∧ l.length = [btxCall, btxCreate, btxCall].countP (fun tx => tx.transactionType == "CALL")
       ∧ (∀ tx ∈ [btxCall, btxCreate, btxCall], tx.transactionType = "CALL" → tx ∈ l))
    ∧ ∃ msg, readBroadcastFile (none : Option (List BroadcastTx)) = Except.error msg :=
  broadcast_reader_filters_calls [btxCall, btxCreate, btxCall]

/-- Counterexample to C7: the input "0x12zz" is not valid hex, yet the
conversion returns "18" rather than "0" — JavaScript parseInt parses the
longest leading hex-digit run ("12") and ignores the trailing junk. -/
theorem convert_hex_unparsable_cex :
    convertHexToDecimal "0x12zz" = "18" ∧ ("18" : String) ≠ "0" :=
  ⟨by decide, by decide⟩

/-- C7 as amended: convertHexToDecimal maps "0x0", "" (and "0x") to "0" and
"0xff" to "255"; it is a total function (never throws); and an input whose
cleaned form parseInt(-, 16) cannot parse at all (no leading hex digit, NaN)
yields "0" — but an input with a parseable hex prefix followed by junk
yields the decimal rendering of that prefix, not "0". -/
theorem convert_hex_to_decimal_spec :
    convertHexToDecimal "0x0" = "0" ∧ convertHexToDecimal "0xff" = "255"
    ∧ convertHexToDecimal "" = "0"
    ∧ ∀ s, parseIntHex (cleanHexOf s) = none → convertHexToDecimal s = "0" := by
  refine ⟨by decide, by decide, by decide, ?_⟩
  intro s h
  rw [convertHexToDecimal]
  split
  · rfl
  · rw [h]

/-- Witness for the amended C7 on the fully unparsable input "0xzz". -/
theorem convert_hex_to_decimal_spec_witness :
    convertHexToDecimal "0xzz" = "0" :=
  convert_hex_to_decimal_spec.2.2.2 "0xzz" (by decide)

/-- C8: shouldStartFork is false whenever skipping is requested, false
whenever the RPC URL contains "localhost" or "127.0.0.1", and true in every
other case. -/
theorem should_start_fork_spec (rpcUrl : String) (skip : Bool) :
    shouldStartFork rpcUrl true = false
    ∧ ((containsSubstr rpcUrl "localhost" = true ∨ containsSubstr rpcUrl "127.0.0.1" = true) →
        shouldStartFork rpcUrl skip = false)
    ∧ (skip = false → containsSubstr rpcUrl "localhost" = false →
        containsSubstr rpcUrl "127.0.0.1" = false → shouldStartFork rpcUrl skip = true) := by
  refine ⟨by simp [shouldStartFork], ?_, ?_⟩
  · intro h
    cases skip with
    | true => simp [shouldStartFork]
    | false => rcases h with h | h <;> simp [shouldStartFork, h]
  · intro hskip h1 h2
    subst hskip
    simp [shouldStartFork, h1, h2]

/-- Witness for C8 at a concrete remote RPC URL. -/
theorem should_start_fork_spec_witness :
    shouldStartFork "https://mainnet.example.com" true = false
    ∧ ((containsSubstr "https://mainnet.example.com" "localhost" = true ∨
        containsSubstr "https://mainnet.example.com" "127.0.0.1" = true) →
        shouldStartFork "https://mainnet.example.com" false = false)
    ∧ (false = false → containsSubstr "https://mainnet.example.com" "localhost" = false →
        containsSubstr "https://mainnet.example.com" "127.0.0.1" = false →
        shouldStartFork "https://mainnet.example.com" false = true) :=
  should_start_fork_spec "https://mainnet.example.com" false

/-- C9: validateTransactionData checks its rules in the order recipient
address, value format, calldata hex, operation kind, and the first failing
rule determines the field reported in the raised ValidationError — in
particular an input breaking both an earlier and a later rule is reported
against the earlier field, and an input passing all rules is accepted. -/
theorem validation_order_spec (isAddr : String → Bool) (tx : TxData) :
    ((tx.toAddr = "" ∨ isAddr tx.toAddr = false) →
       validateTransactionData isAddr tx = Except.error ⟨"transaction recipient"⟩)
    ∧ (tx.toAddr ≠ "" → isAddr tx.toAddr = true →
        (tx.value ≠ "" ∧ tx.value ≠ "0" ∧ decDigits tx.value = false ∧
          strStartsWith tx.value "0x" = false) →
        validateTransactionData isAddr tx = Except.error ⟨"value"⟩)
    ∧ (tx.toAddr ≠ "" → isAddr tx.toAddr = true →
        ¬(tx.value ≠ "" ∧ tx.value ≠ "0" ∧ decDigits tx.value = false ∧
          strStartsWith tx.value "0x" = false) →
        (tx.data ≠ "" ∧ tx.data ≠ "0x" ∧
          (cleanHexOf tx.data).toList.all isHexDigitChar = false) →
        validateTransactionData isAddr tx = Except.error ⟨"transaction data"⟩)
    ∧ (tx.toAddr ≠ "" → isAddr tx.toAddr = true →
        ¬(tx.value ≠ "" ∧ tx.value ≠ "0" ∧ decDigits tx.value = false ∧
          strStartsWith tx.value "0x" = false) →
        ¬(tx.data ≠ "" ∧ tx.data ≠ "0x" ∧
          (cleanHexOf tx.data).toList.all isHexDigitChar = false) →
        (∀ op, tx.operation = some op → (op ≠ "" ∧ op ≠ "call" ∧ op ≠ "delegatecall") →
          validateTransactionData isAddr tx = Except.error ⟨"operation"⟩)
        ∧ ((∀ op, tx.operation = some op → op = "" ∨ op = "call" ∨ op = "delegatecall") →
          validateTransactionData isAddr tx = Except.ok ())) := by
  have haddr_ok : tx.toAddr ≠ "" → isAddr tx.toAddr = true →
      validateAddress isAddr tx.toAddr "transaction recipient" = Except.ok () := by
    intro he ha
    rw [validateAddress, if_neg he, if_neg (by simp [ha])]
  have hdata_ok : ¬(tx.data ≠ "" ∧ tx.data ≠ "0x" ∧
      (cleanHexOf tx.data).toList.all isHexDigitChar = false) →
      (if tx.data ≠ "" ∧ tx.data ≠ "0x" then
        validateHexString tx.data "transaction data" none
      else Except.ok ()) = Except.ok () := by
    intro hdok
    by_cases hg : tx.data ≠ "" ∧ tx.data ≠ "0x"
    · have hall : (cleanHexOf tx.data).toList.all isHexDigitChar = true := by
        rcases Bool.eq_false_or_eq_true ((cleanHexOf tx.data).toList.all isHexDigitChar) with
          ht | hf
        · exact ht
        · exact absurd ⟨hg.1, hg.2, hf⟩ hdok
      rw [if_pos hg, validateHexString, if_neg hg.1, if_neg (by rw [hall]; simp)]
    · rw [if_neg hg]
  refine ⟨?_, ?_, ?_, ?_⟩
  · intro h
    rcases h with h | h
    · simp only [validateTransactionData, validateAddress]
      rw [if_pos h]
    · by_cases he : tx.toAddr = ""
      · simp only [validateTransactionData, validateAddress]
        rw [if_pos he]
      · simp only [validateTransactionData, validateAddress]
        rw [if_neg he, if_pos (by simp [h])]
  · intro he ha hv
    simp only [validateTransactionData, haddr_ok he ha]
    rw [if_pos hv]
  · intro he ha hvok hd
    simp only [validateTransactionData, haddr_ok he ha]
    rw [if_neg hvok, if_pos ⟨hd.1, hd.2.1⟩, validateHexString, if_neg hd.1,
      if_pos (by rw [hd.2.2]; rfl)]
  · intro he ha hvok hdok
    constructor
    · intro op hop hbad
      simp only [validateTransactionData, haddr_ok he ha]
      rw [if_neg hvok, hdata_ok hdok]
      simp only [hop]
      rw [if_pos hbad]
    · intro hopok
      simp only [validateTransactionData, haddr_ok he ha]
      rw [if_neg hvok, hdata_ok hdok]
      cases hop : tx.operation with
      | none => rfl
      | some op =>
        exact if_neg (by rcases hopok op hop with h | h | h <;> simp [h])

def isAddrC9 : String → Bool := fun s => s == "0xaaaa"

def txC9 : TxData := ⟨"0xaaaa", "12", "0x", some "call"⟩

/-- Witness for C9 at a concrete well-formed transaction input. -/
theorem validation_order_spec_witness :
    ((txC9.toAddr = "" ∨ isAddrC9 txC9.toAddr = false) →
       validateTransactionData isAddrC9 txC9 = Except.error ⟨"transaction recipient"⟩)
    ∧ (txC9.toAddr ≠ "" → isAddrC9 txC9.toAddr = true →
        (txC9.value ≠ "" ∧ txC9.value ≠ "0" ∧ decDigits txC9.value = false ∧
          strStartsWith txC9.value "0x" = false) →
        validateTransactionData isAddrC9 txC9 = Except.error ⟨"value"⟩)
    ∧ (txC9.toAddr ≠ "" → isAddrC9 txC9.toAddr = true →
        ¬(txC9.value ≠ "" ∧ txC9.value ≠ "0" ∧ decDigits txC9.value = false ∧
          strStartsWith txC9.value "0x" = false) →
        (txC9.data ≠ "" ∧ txC9.data ≠ "0x" ∧
          (cleanHexOf txC9.data).toList.all isHexDigitChar = false) →
        validateTransactionData isAddrC9 txC9 = Except.error ⟨"transaction data"⟩)
    ∧ (txC9.toAddr ≠ "" → isAddrC9 txC9.toAddr = true →
        ¬(txC9.value ≠ "" ∧ txC9.value ≠ "0" ∧ decDigits txC9.value = false ∧
          strStartsWith txC9.value "0x" = false) →
        ¬(txC9.data ≠ "" ∧ txC9.data ≠ "0x" ∧
          (cleanHexOf txC9.data).toList.all isHexDigitChar = false) →
        (∀ op, txC9.operation = some op → (op ≠ "" ∧ op ≠ "call" ∧ op ≠ "delegatecall") →
          validateTransactionData isAddrC9 txC9 = Except.error ⟨"operation"⟩)
        ∧ ((∀ op, txC9.operation = some op → op = "" ∨ op = "call" ∨ op = "delegatecall") →
          validateTransactionData isAddrC9 txC9 = Except.ok ())) :=
  validation_order_spec isAddrC9 txC9

/-- A pattern that matches at the start of s also matches at the start of
s ++ t. -/
theorem startsWithList_append (pat : List Char) :
    ∀ s t, startsWithList pat s = true → startsWithList pat (s ++ t) = true := by
  induction pat with
  | nil => intro s t _; rfl
  | cons p ps ih =>
    intro s t h
    cases s with
    | nil => exact absurd h (by simp [startsWithList])
    | cons c cs =>
      rw [startsWithList] at h
      rcases Bool.and_eq_true (decide (p = c)) (startsWithList ps cs) |>.mp h with ⟨h1, h2⟩
      show (decide (p = c) && startsWithList ps (cs ++ t)) = true
      rw [h1, ih cs t h2]
      rfl

/-- One-step unfolding of hasInfixAux on the empty list. -/
theorem hasInfixAux_nil (pat : List Char) :
    hasInfixAux pat [] = (startsWithList pat [] || false) := rfl

/-- One-step unfolding of hasInfixAux on a cons cell. -/
theorem hasInfixAux_cons (pat : List Char) (c : Char) (cs : List Char) :
    hasInfixAux pat (c :: cs) = (startsWithList pat (c :: cs) || hasInfixAux pat cs) := rfl

/-- A pattern matching at the start of s occurs in s. -/
theorem hasInfixAux_of_startsWith (pat s : List Char) (h : startsWithList pat s = true) :
    hasInfixAux pat s = true := by
  cases s with
  | nil => rw [hasInfixAux_nil, h]; rfl
  | cons c cs => rw [hasInfixAux_cons, h]; rfl

/-- A pattern occurring in s also occurs in s ++ t. -/
theorem hasInfixAux_append (pat : List Char) :
    ∀ s t, hasInfixAux pat s = true → hasInfixAux pat (s ++ t) = true := by
  intro s
  induction s with
  | nil =>
    intro t h
    rw [List.nil_append]
    have hp : startsWithList pat [] = true := by
      rw [hasInfixAux_nil] at h
      simpa using h
    have hpat : pat = [] := by
      cases pat with
      | nil => rfl
      | cons p ps => exact absurd hp (by simp [startsWithList])
    subst hpat
    exact hasInfixAux_of_startsWith [] t rfl
  | cons c cs ih =>
    intro t h
    rw [hasInfixAux_cons] at h
    rw [List.cons_append, hasInfixAux_cons]
    rcases Bool.or_eq_true_iff.mp h with h1 | h2
    · have hsw := startsWithList_append pat (c :: cs) t h1
      rw [List.cons_append] at hsw
      rw [hsw]
      rfl
    · rw [ih t h2]
      simp

/-- Containment in a string is preserved by appending on the right. -/
theorem containsSubstr_append_left (a b pat : String) :
    containsSubstr a pat = true → containsSubstr (a ++ b) pat = true := by
  intro h
  rw [containsSubstr, String.data_append]
  exact hasInfixAux_append pat.data a.data b.data h

def cfgC10 : AnvilConfig := ⟨none, some "10.0.0.5", "https://rpc.example.com"⟩

/-- Counterexample to C10: with a running fork whose configuration carries
the non-loopback host 10.0.0.5, getForgeRpcUrl returns
http://10.0.0.5:8545, a URL containing neither "localhost" nor
"127.0.0.1". -/
theorem forge_rpc_url_cex :
    getForgeRpcUrl "https://rpc.example.com" true (some cfgC10) = "http://10.0.0.5:8545"
    ∧ containsSubstr "http://10.0.0.5:8545" "localhost" = false
    ∧ containsSubstr "http://10.0.0.5:8545" "127.0.0.1" = false :=
  ⟨by decide, by decide, by decide⟩

/-- C10 as amended: when a fork is running with a configuration,
getForgeRpcUrl returns http://host:port with host 0.0.0.0 rewritten to
localhost (and missing or empty host defaulting to localhost); otherwise an
input URL already containing "localhost" or "127.0.0.1" is returned
unchanged, and every remaining case returns http://localhost:8545.  The
loopback guarantee of the claim holds in the no-fork branches and whenever
the fork configuration's host is missing, empty, "0.0.0.0" or "localhost"
(as in every call site of this repository, which leaves the host unset) —
but not for an arbitrary configured host, as the counterexample shows. -/
theorem forge_rpc_url_spec (rpcUrl : String) (anvilRunning : Bool) (cfg : Option AnvilConfig) :
    (∀ c, cfg = some c → anvilRunning = true →
        getForgeRpcUrl rpcUrl anvilRunning cfg =
          "http://" ++ anvilHostOf c ++ ":" ++ toString (anvilPortOf c))
    ∧ (anvilRunning = false ∨ cfg = none →
        ((containsSubstr rpcUrl "localhost" = true ∨ containsSubstr rpcUrl "127.0.0.1" = true) →
           getForgeRpcUrl rpcUrl anvilRunning cfg = rpcUrl)
        ∧ ((containsSubstr rpcUrl "localhost" = true ∨ containsSubstr rpcUrl "127.0.0.1" = true) →
           containsSubstr (getForgeRpcUrl rpcUrl anvilRunning cfg) "localhost" = true ∨
           containsSubstr (getForgeRpcUrl rpcUrl anvilRunning cfg) "127.0.0.1" = true)
        ∧ (containsSubstr rpcUrl "localhost" = false → containsSubstr rpcUrl "127.0.0.1" = false →
           getForgeRpcUrl rpcUrl anvilRunning cfg = "http://localhost:8545"))
    ∧ (∀ c, cfg = some c → anvilRunning = true →
        (c.host = none ∨ c.host = some "0.0.0.0" ∨ c.host = some "localhost" ∨ c.host = some "") →
        containsSubstr (getForgeRpcUrl rpcUrl anvilRunning cfg) "localhost" = true) := by
  have hbranch : ∀ c, cfg = some c → anvilRunning = true →
      getForgeRpcUrl rpcUrl anvilRunning cfg =
        "http://" ++ anvilHostOf c ++ ":" ++ toString (anvilPortOf c) := by
    intro c hc hr
    subst hc; subst hr
    rfl
  have hnofork : anvilRunning = false ∨ cfg = none →
      getForgeRpcUrl rpcUrl anvilRunning cfg =
        (if containsSubstr rpcUrl "localhost" || containsSubstr rpcUrl "127.0.0.1" then rpcUrl
         else "http://localhost:8545") := by
    intro h
    rcases h with h | h
    · subst h; cases cfg <;> rfl
    · subst h; cases anvilRunning <;> rfl
  refine ⟨hbranch, ?_, ?_⟩
  · intro h
    refine ⟨?_, ?_, ?_⟩
    · intro hloop
      rw [hnofork h, if_pos (by rcases hloop with hl | hl <;> simp [hl])]
    · intro hloop
      rw [hnofork h, if_pos (by rcases hloop with hl | hl <;> simp [hl])]
      exact hloop
    · intro h1 h2
      rw [hnofork h, if_neg (by simp [h1, h2])]
  · intro c hc hr hhost
    have hhostl : anvilHostOf c = "localhost" := by
      rcases hhost with h | h | h | h <;> simp [anvilHostOf, h]
    rw [hbranch c hc hr, hhostl,
      show ("http://" ++ "localhost" ++ ":" : String) = "http://localhost:" from by decide]
    exact containsSubstr_append_left "http://localhost:" (toString (anvilPortOf c)) "localhost"
      (by decide)

def cfgC10W : AnvilConfig := ⟨some 9000, none, "https://rpc.example.com"⟩

/-- Witness for the amended C10 at a concrete running fork whose
configuration leaves the host unset. -/
theorem forge_rpc_url_spec_witness :
    (∀ c, (some cfgC10W = some c) → true = true →
        getForgeRpcUrl "https://rpc.example.com" true (some cfgC10W) =
          "http://" ++ anvilHostOf c ++ ":" ++ toString (anvilPortOf c))
    ∧ (true = false ∨ some cfgC10W = none →
        ((containsSubstr "https://rpc.example.com" "localhost" = true ∨
          containsSubstr "https://rpc.example.com" "127.0.0.1" = true) →
           getForgeRpcUrl "https://rpc.example.com" true (some cfgC10W) = "https://rpc.example.com")
        ∧ ((containsSubstr "https://rpc.example.com" "localhost" = true ∨
            containsSubstr "https://rpc.example.com" "127.0.0.1" = true) →
           containsSubstr (getForgeRpcUrl "https://rpc.example.com" true (some cfgC10W))
             "localhost" = true ∨
           containsSubstr (getForgeRpcUrl "https://rpc.example.com" true (some cfgC10W))
             "127.0.0.1" = true)
        ∧ (containsSubstr "https://rpc.example.com" "localhost" = false →
           containsSubstr "https://rpc.example.com" "127.0.0.1" = false →
           getForgeRpcUrl "https://rpc.example.com" true (some cfgC10W) = "http://localhost:8545"))
    ∧ (∀ c, (some cfgC10W = some c) → true = true →
        (c.host = none ∨ c.host = some "0.0.0.0" ∨ c.host = some "localhost" ∨ c.host = some "") →
        containsSubstr (getForgeRpcUrl "https://rpc.example.com" true (some cfgC10W))
          "localhost" = true) :=
  forge_rpc_url_spec "https://rpc.example.com" true (some cfgC10W)
